import Mathlib

/-!
Verification of the portfolio-block extractor in
scripts/parse_portfolio_html.py and scripts/build_portfolio_list.py.

Strings are modelled as `List Char`.  The regular expressions used by the
scripts are fixed literal patterns with character classes; each one is
translated into a deterministic matcher (the greedy quantifiers in these
particular patterns admit no useful backtracking except in the image
pattern, where the backtracking loop is modelled explicitly by `imgTry`).
Python's `\s` and `str.strip` whitespace class is modelled by its ASCII
portion.
-/

set_option maxRecDepth 8000

namespace Portfolio

/-- ASCII portion of Python's whitespace class (used by `\s` and `str.strip`). -/
def isPySpace (c : Char) : Bool :=
  c == ' ' || c == '\t' || c == '\n' || c == '\r' || c == Char.ofNat 11 || c == Char.ofNat 12

/-- Python `str.strip`: drop whitespace at both ends. -/
def trim (l : List Char) : List Char :=
  List.rdropWhile isPySpace (List.dropWhile isPySpace l)

/-- Consume the literal `p` at the head of `l`; return the remainder on success. -/
def dropLit : List Char → List Char → Option (List Char)
  | [], l => some l
  | _ :: _, [] => none
  | p :: ps, c :: cs => if c = p then dropLit ps cs else none

/-- The literal part of the block-boundary pattern
`<div id="div_block-4-15103-\d+"` from `re.split`. -/
def blockMarker : List Char := String.toList "<div id=\"div_block-4-15103-"

/-- Match of the block-boundary pattern at the head of `l`:
the literal, then one or more digits (greedy), then a double quote.
Returns the text after the match. -/
def matchBoundaryAt (l : List Char) : Option (List Char) :=
  match dropLit blockMarker l with
  | none => none
  | some r =>
    if (r.takeWhile Char.isDigit).isEmpty then none
    else
      match r.dropWhile Char.isDigit with
      | '"' :: rest => some rest
      | _ => none

/-- One step of `re.split` scanning, with explicit fuel (one unit per input
character; every boundary match consumes at least one character, so
`fuel = l.length` suffices). `acc` holds the current segment reversed. -/
def splitF : Nat → List Char → List Char → List (List Char)
  | 0, _, acc => [acc.reverse]
  | fuel + 1, l, acc =>
    match matchBoundaryAt l with
    | some rest => acc.reverse :: splitF fuel rest []
    | none =>
      match l with
      | [] => [acc.reverse]
      | c :: cs => splitF fuel cs (c :: acc)

/-- `re.split(r'<div id="div_block-4-15103-\d+"', html)`. -/
def splitBlocks (l : List Char) : List (List Char) :=
  splitF l.length l []

/-- Number of (non-overlapping, leftmost) occurrences of the block-boundary
pattern, counted by the same scan `re.split` performs. -/
def countF : Nat → List Char → Nat
  | 0, _ => 0
  | fuel + 1, l =>
    match matchBoundaryAt l with
    | some rest => countF fuel rest + 1
    | none =>
      match l with
      | [] => 0
      | _ :: cs => countF fuel cs

def countBoundary (l : List Char) : Nat := countF l.length l

/-- Literal part of the title pattern
`<span id="span-225-15124-\d+"[^>]*>([^<]+)</span>`. -/
def titleMarker : List Char := String.toList "<span id=\"span-225-15124-"

def spanClose : List Char := String.toList "</span>"

/-- Match of the title pattern at the head of `l`; returns capture group 1.
After the literal and the digits and the quote, `[^>]*>` consumes up to and
including the first unquoted position holding a greater-than sign, then
`([^<]+)` captures the maximal nonempty run without a less-than sign, which
must be followed by the literal `</span>`. -/
def matchTitleAt (l : List Char) : Option (List Char) :=
  match dropLit titleMarker l with
  | none => none
  | some r =>
    if (r.takeWhile Char.isDigit).isEmpty then none
    else
      match r.dropWhile Char.isDigit with
      | '"' :: r1 =>
        match r1.dropWhile (fun c => c != '>') with
        | '>' :: r2 =>
          if (r2.takeWhile (fun c => c != '<')).isEmpty then none
          else
            match dropLit spanClose (r2.dropWhile (fun c => c != '<')) with
            | some _ => some (r2.takeWhile (fun c => c != '<'))
            | none => none
        | _ => none
      | _ => none

def hrefLit : List Char := String.toList "href=\""

/-- Match of the anchor pattern `<a\s+href="([^"]+)"` at the head of `l`;
returns capture group 1. -/
def matchLinkAt (l : List Char) : Option (List Char) :=
  match dropLit (String.toList "<a") l with
  | none => none
  | some r =>
    if (r.takeWhile isPySpace).isEmpty then none
    else
      match dropLit hrefLit (r.dropWhile isPySpace) with
      | none => none
      | some r1 =>
        if (r1.takeWhile (fun c => c != '"')).isEmpty then none
        else
          match r1.dropWhile (fun c => c != '"') with
          | '"' :: _ => some (r1.takeWhile (fun c => c != '"'))
          | _ => none

def srcLit : List Char := String.toList "src=\""

/-- Match of `src="([^"]+)"` at the head of `u`; returns capture group 1. -/
def matchSrcQ (u : List Char) : Option (List Char) :=
  match dropLit srcLit u with
  | none => none
  | some r =>
    if (r.takeWhile (fun c => c != '"')).isEmpty then none
    else
      match r.dropWhile (fun c => c != '"') with
      | '"' :: _ => some (r.takeWhile (fun c => c != '"'))
      | _ => none

/-- Backtracking loop of the greedy `[^>]+` in the image pattern: try the
longest consumed run first, shrinking one character at a time, never empty. -/
def imgTry (t : List Char) : Nat → Option (List Char)
  | 0 => none
  | k + 1 =>
    match matchSrcQ (t.drop (k + 1)) with
    | some g => some g
    | none => imgTry t k

/-- Match of the image pattern `<img[^>]+src="([^"]+)"` at the head of `l`;
returns capture group 1. -/
def matchImgAt (l : List Char) : Option (List Char) :=
  match dropLit (String.toList "<img") l with
  | none => none
  | some t => imgTry t (t.takeWhile (fun c => c != '>')).length

/-- `re.search`: try a match at every position, leftmost first. -/
def searchAux (m : List Char → Option (List Char)) : List Char → Option (List Char)
  | [] => m []
  | c :: cs =>
    match m (c :: cs) with
    | some g => some g
    | none => searchAux m cs

/-- The placeholder string `"(no link)"`. -/
def noLink : List Char := String.toList "(no link)"

/-- `title_m.group(1).strip() if title_m else ""` (identical in both scripts). -/
def titleOf (b : List Char) : List Char :=
  match searchAux matchTitleAt b with
  | some g => trim g
  | none => []

/-- `link_m.group(1).strip() if link_m else ""`: the trimmed raw anchor
capture, before either script's normalization. -/
def rawLinkOf (b : List Char) : List Char :=
  match searchAux matchLinkAt b with
  | some g => trim g
  | none => []

/-- `img_m.group(1).strip() if img_m else ""` (identical in both scripts). -/
def imageOf (b : List Char) : List Char :=
  match searchAux matchImgAt b with
  | some g => trim g
  | none => []

/-- One extracted portfolio entry. -/
structure PortfolioItem where
  index : Nat
  title : List Char
  image : List Char
  link : List Char
deriving DecidableEq

/-- Per-block extraction of parse_portfolio_html.py: the raw link is reset to
`""` when it is `""` or `"#"`, and the final field is `link or "(no link)"`. -/
def extractBlock (i : Nat) (b : List Char) : PortfolioItem :=
  let link0 := rawLinkOf b
  let link1 := if link0 = [] ∨ link0 = [ '#' ] then [] else link0
  { index := i + 1
    title := titleOf b
    image := imageOf b
    link := if link1 = [] then noLink else link1 }

/-- Per-block extraction of build_portfolio_list.py: the raw link is stripped
once more, then set to `"(no link)"` when it is `""` or `"#"`. -/
def extractBlockB (i : Nat) (b : List Char) : PortfolioItem :=
  let link0 := trim (rawLinkOf b)
  { index := i + 1
    title := titleOf b
    image := imageOf b
    link := if link0 = [] ∨ link0 = [ '#' ] then noLink else link0 }

/-- `for i, block in enumerate(blocks)` of parse_portfolio_html.py. -/
def extractFrom (i : Nat) : List (List Char) → List PortfolioItem
  | [] => []
  | b :: bs => extractBlock i b :: extractFrom (i + 1) bs

/-- `for i, block in enumerate(blocks)` of build_portfolio_list.py. -/
def extractFromB (i : Nat) : List (List Char) → List PortfolioItem
  | [] => []
  | b :: bs => extractBlockB i b :: extractFromB (i + 1) bs

/-- Extraction of parse_portfolio_html.py: split on the block boundary,
discard the preamble (`blocks[1:]`), extract each block. -/
def extract (html : List Char) : List PortfolioItem :=
  extractFrom 0 ((splitBlocks html).drop 1)

/-- Extraction of build_portfolio_list.py (after its guard). -/
def extractB (html : List Char) : List PortfolioItem :=
  extractFromB 0 ((splitBlocks html).drop 1)

/-- The sentinel substring checked by build_portfolio_list.py's guard. -/
def sentinel : List Char := String.toList "div_block-4-15103-2"

/-- `needle` is a prefix of `hay` (Boolean). -/
def startsWithLit : List Char → List Char → Bool
  | [], _ => true
  | _ :: _, [] => false
  | p :: ps, c :: cs => c = p && startsWithLit ps cs

/-- Python's `needle in hay` substring test. -/
def containsSub (needle : List Char) : List Char → Bool
  | [] => needle.isEmpty
  | c :: cs => startsWithLit needle (c :: cs) || containsSub needle cs

/-- The diagnostic printed to stderr by build_portfolio_list.py's guard. -/
def diagMsg : List Char :=
  String.toList "Paste the full portfolio HTML into the HTML variable in this script."

/-- Observable outcome of one run of build_portfolio_list.py's `main`:
an optional stderr diagnostic and the items written to the output file. -/
structure BuildRun where
  diag : Option (List Char)
  written : Option (List PortfolioItem)
deriving DecidableEq

/-- `main` of build_portfolio_list.py: guard first, then extract and write. -/
def buildMain (html : List Char) : BuildRun :=
  if trim html = [] ∨ containsSub sentinel html = false then
    { diag := some diagMsg, written := none }
  else
    { diag := none, written := some (extractB html) }

/-! ### Helper lemmas -/

theorem dropLit_length : ∀ (p l r : List Char), dropLit p l = some r → r.length + p.length = l.length
  | [], l, r, h => by simp [dropLit] at h; simp [h]
  | _ :: _, [], r, h => by simp [dropLit] at h
  | p :: ps, c :: cs, r, h => by
    by_cases hc : c = p
    · simp [dropLit, hc] at h
      have := dropLit_length ps cs r h
      simp [List.length_cons]
      omega
    · simp [dropLit, hc] at h

theorem matchBoundaryAt_length {l r : List Char} (h : matchBoundaryAt l = some r) :
    r.length < l.length := by
  unfold matchBoundaryAt at h
  split at h
  · exact absurd h (by simp)
  · rename_i r0 hd
    have hlen : r0.length + blockMarker.length = l.length := dropLit_length _ _ _ hd
    split at h
    · exact absurd h (by simp)
    · split at h
      · rename_i rest hw
        have h1 : rest.length < r0.length := by
          have hs := (List.dropWhile_sublist (l := r0) Char.isDigit).length_le
          rw [hw] at hs
          simp [List.length_cons] at hs
          omega
        have hbm : 0 < blockMarker.length := by decide
        have hr : r = rest := by injection h with h2; exact h2.symm
        have hrl : r.length = rest.length := by rw [hr]
        omega
      · exact absurd h (by simp)

theorem splitF_zero (l acc : List Char) : splitF 0 l acc = [acc.reverse] := rfl

theorem splitF_succ (fuel : Nat) (l acc : List Char) :
    splitF (fuel + 1) l acc =
      match matchBoundaryAt l with
      | some rest => acc.reverse :: splitF fuel rest []
      | none =>
        match l with
        | [] => [acc.reverse]
        | c :: cs => splitF fuel cs (c :: acc) := rfl

theorem countF_zero (l : List Char) : countF 0 l = 0 := rfl

theorem countF_succ (fuel : Nat) (l : List Char) :
    countF (fuel + 1) l =
      match matchBoundaryAt l with
      | some rest => countF fuel rest + 1
      | none =>
        match l with
        | [] => 0
        | _ :: cs => countF fuel cs := rfl

theorem splitF_length : ∀ (fuel : Nat) (l acc : List Char), l.length ≤ fuel →
    (splitF fuel l acc).length = countF fuel l + 1
  | 0, l, acc, h => by simp [splitF_zero, countF_zero]
  | fuel + 1, l, acc, h => by
    rw [splitF_succ, countF_succ]
    cases hm : matchBoundaryAt l with
    | some rest =>
      have hr : rest.length ≤ fuel := by
        have := matchBoundaryAt_length hm
        omega
      simp [splitF_length fuel rest [] hr]
    | none =>
      cases l with
      | nil => simp
      | cons c cs =>
        have hc : cs.length ≤ fuel := by simp [List.length_cons] at h; omega
        simp [splitF_length fuel cs (c :: acc) hc]

theorem splitBlocks_length (l : List Char) :
    (splitBlocks l).length = countBoundary l + 1 :=
  splitF_length l.length l [] (Nat.le_refl _)

theorem extractFrom_length : ∀ (i : Nat) (bs : List (List Char)),
    (extractFrom i bs).length = bs.length
  | _, [] => rfl
  | i, b :: bs => by simp [extractFrom, extractFrom_length (i + 1) bs]

theorem extractFromB_length : ∀ (i : Nat) (bs : List (List Char)),
    (extractFromB i bs).length = bs.length
  | _, [] => rfl
  | i, b :: bs => by simp [extractFromB, extractFromB_length (i + 1) bs]

theorem extractFrom_getElem? : ∀ (i k : Nat) (bs : List (List Char)),
    (extractFrom i bs)[k]? = bs[k]?.map (fun b => extractBlock (i + k) b)
  | i, k, [] => by simp [extractFrom]
  | i, 0, b :: bs => by simp [extractFrom]
  | i, k + 1, b :: bs => by
    have := extractFrom_getElem? (i + 1) k bs
    simp [extractFrom, this]
    have harith : i + 1 + k = i + (k + 1) := by omega
    rw [harith]

theorem extractFromB_getElem? : ∀ (i k : Nat) (bs : List (List Char)),
    (extractFromB i bs)[k]? = bs[k]?.map (fun b => extractBlockB (i + k) b)
  | i, k, [] => by simp [extractFromB]
  | i, 0, b :: bs => by simp [extractFromB]
  | i, k + 1, b :: bs => by
    have := extractFromB_getElem? (i + 1) k bs
    simp [extractFromB, this]
    have harith : i + 1 + k = i + (k + 1) := by omega
    rw [harith]

theorem extract_getElem? (html : List Char) (k : Nat) :
    (extract html)[k]? = ((splitBlocks html).drop 1)[k]?.map (fun b => extractBlock k b) := by
  unfold extract
  rw [extractFrom_getElem?]
  simp

theorem extractB_getElem? (html : List Char) (k : Nat) :
    (extractB html)[k]? = ((splitBlocks html).drop 1)[k]?.map (fun b => extractBlockB k b) := by
  unfold extractB
  rw [extractFromB_getElem?]
  simp

/-- If a match exists at position `j` and at no earlier position, the leftmost
search returns exactly that match. -/
theorem searchAux_first (m : List Char → Option (List Char)) :
    ∀ (l : List Char) (j : Nat) (g : List Char), m (l.drop j) = some g →
    (∀ j' < j, m (l.drop j') = none) → searchAux m l = some g
  | [], j, g, hj, _ => by
    simp [List.drop_nil] at hj
    simp [searchAux, hj]
  | c :: cs, 0, g, hj, _ => by
    simp at hj
    simp [searchAux, hj]
  | c :: cs, j + 1, g, hj, hmin => by
    have h0 : m (c :: cs) = none := by
      have := hmin 0 (Nat.succ_pos j)
      simpa using this
    rw [List.drop_succ_cons] at hj
    have hmin' : ∀ j' < j, m (cs.drop j') = none := by
      intro j' hj'
      have := hmin (j' + 1) (Nat.succ_lt_succ hj')
      rwa [List.drop_succ_cons] at this
    simp [searchAux, h0, searchAux_first m cs j g hj hmin']

/-- If no position matches, the leftmost search fails. -/
theorem searchAux_none (m : List Char → Option (List Char)) :
    ∀ (l : List Char), (∀ j, m (l.drop j) = none) → searchAux m l = none
  | [], h => by simpa [searchAux] using h 0
  | c :: cs, h => by
    have h0 : m (c :: cs) = none := by simpa using h 0
    have h' : ∀ j, m (cs.drop j) = none := by
      intro j
      have := h (j + 1)
      rwa [List.drop_succ_cons] at this
    simp [searchAux, h0, searchAux_none m cs h']

/-- A successful leftmost search comes from a match at some position. -/
theorem searchAux_some (m : List Char → Option (List Char)) :
    ∀ (l : List Char) (g : List Char), searchAux m l = some g →
    ∃ j, m (l.drop j) = some g
  | [], g, h => ⟨0, by simpa [searchAux] using h⟩
  | c :: cs, g, h => by
    cases hm : m (c :: cs) with
    | some g' =>
      refine ⟨0, ?_⟩
      simp [searchAux, hm] at h
      simpa [hm] using h
    | none =>
      simp [searchAux, hm] at h
      obtain ⟨j, hj⟩ := searchAux_some m cs g h
      exact ⟨j + 1, by rwa [List.drop_succ_cons]⟩

theorem trim_nil : trim [] = [] := rfl

theorem trim_head {l : List Char} {c : Char} {cs : List Char} (h : trim l = c :: cs) :
    isPySpace c = false := by
  unfold trim at h
  obtain ⟨t, ht⟩ := List.rdropWhile_prefix isPySpace (List.dropWhile isPySpace l)
  rw [h] at ht
  have hh : (List.dropWhile isPySpace l).head? = some c := by
    rw [← ht]; rfl
  have h2 := List.head?_dropWhile_not isPySpace l
  rw [hh] at h2
  exact h2

theorem dropWhile_trim (l : List Char) :
    List.dropWhile isPySpace (trim l) = trim l := by
  cases htl : trim l with
  | nil => simp
  | cons c cs =>
    exact List.dropWhile_cons_of_neg (by simp [trim_head htl])

theorem rdropWhile_trim (l : List Char) :
    List.rdropWhile isPySpace (trim l) = trim l :=
  List.rdropWhile_idempotent isPySpace (List.dropWhile isPySpace l)

theorem trim_trim (l : List Char) : trim (trim l) = trim l := by
  show List.rdropWhile isPySpace (List.dropWhile isPySpace (trim l)) = trim l
  rw [dropWhile_trim, rdropWhile_trim]

theorem mem_trim {a : Char} {l : List Char} (h : a ∈ trim l) : a ∈ l := by
  unfold trim at h
  have h1 := (List.rdropWhile_prefix isPySpace (List.dropWhile isPySpace l)).sublist.subset h
  exact (List.dropWhile_sublist isPySpace).subset h1

theorem trim_rawLinkOf (b : List Char) : trim (rawLinkOf b) = rawLinkOf b := by
  unfold rawLinkOf
  cases h : searchAux matchLinkAt b with
  | none => exact trim_nil
  | some g => exact trim_trim g

theorem trim_titleOf (b : List Char) : trim (titleOf b) = titleOf b := by
  unfold titleOf
  cases h : searchAux matchTitleAt b with
  | none => exact trim_nil
  | some g => exact trim_trim g

theorem trim_imageOf (b : List Char) : trim (imageOf b) = imageOf b := by
  unfold imageOf
  cases h : searchAux matchImgAt b with
  | none => exact trim_nil
  | some g => exact trim_trim g

theorem extractBlock_index (i : Nat) (b : List Char) : (extractBlock i b).index = i + 1 := rfl

theorem extractBlock_title (i : Nat) (b : List Char) : (extractBlock i b).title = titleOf b := rfl

theorem extractBlock_image (i : Nat) (b : List Char) : (extractBlock i b).image = imageOf b := rfl

theorem extractBlockB_index (i : Nat) (b : List Char) : (extractBlockB i b).index = i + 1 := rfl

theorem extractBlockB_title (i : Nat) (b : List Char) : (extractBlockB i b).title = titleOf b := rfl

theorem extractBlockB_image (i : Nat) (b : List Char) : (extractBlockB i b).image = imageOf b := rfl

/-- The link normalization of parse_portfolio_html.py, in closed form. -/
theorem extractBlock_link (i : Nat) (b : List Char) :
    (extractBlock i b).link =
      if rawLinkOf b = [] ∨ rawLinkOf b = [ '#' ] then noLink else rawLinkOf b := by
  unfold extractBlock
  by_cases h : rawLinkOf b = [] ∨ rawLinkOf b = [ '#' ]
  · simp [h]
  · simp [h]
    intro hnil
    exact absurd (Or.inl hnil) h

/-- The link normalization of build_portfolio_list.py, in closed form:
identical to the other script's. -/
theorem extractBlockB_link (i : Nat) (b : List Char) :
    (extractBlockB i b).link =
      if rawLinkOf b = [] ∨ rawLinkOf b = [ '#' ] then noLink else rawLinkOf b := by
  unfold extractBlockB
  rw [trim_rawLinkOf]

theorem extractBlock_eq_extractBlockB (i : Nat) (b : List Char) :
    extractBlock i b = extractBlockB i b := by
  have h1 := extractBlock_link i b
  have h2 := extractBlockB_link i b
  unfold extractBlock at h1 ⊢
  unfold extractBlockB at h2 ⊢
  simp only [] at h1 h2 ⊢
  rw [h1, h2]

theorem extractFrom_eq_extractFromB : ∀ (i : Nat) (bs : List (List Char)),
    extractFrom i bs = extractFromB i bs
  | _, [] => rfl
  | i, b :: bs => by
    simp [extractFrom, extractFromB, extractBlock_eq_extractBlockB,
      extractFrom_eq_extractFromB (i + 1) bs]

theorem extract_eq_extractB (html : List Char) : extract html = extractB html := by
  unfold extract extractB
  rw [extractFrom_eq_extractFromB]

/-- The title capture `([^<]+)` contains no less-than sign. -/
theorem matchTitleAt_group {l g : List Char} (h : matchTitleAt l = some g) :
    ∀ c ∈ g, c ≠ '<' := by
  unfold matchTitleAt at h
  split at h
  · simp at h
  · split at h
    · simp at h
    · split at h
      · split at h
        · split at h
          · simp at h
          · split at h
            · injection h with h1
              subst h1
              intro c hc
              have hp := List.mem_takeWhile_imp hc
              simpa using hp
            · simp at h
        · simp at h
      · simp at h

/-- The anchor capture `([^"]+)` contains no double quote. -/
theorem matchLinkAt_group {l g : List Char} (h : matchLinkAt l = some g) :
    ∀ c ∈ g, c ≠ '"' := by
  unfold matchLinkAt at h
  split at h
  · simp at h
  · split at h
    · simp at h
    · split at h
      · simp at h
      · split at h
        · simp at h
        · split at h
          · injection h with h1
            subst h1
            intro c hc
            have hp := List.mem_takeWhile_imp hc
            simpa using hp
          · simp at h

/-- The image capture `([^"]+)` contains no double quote. -/
theorem matchSrcQ_group {u g : List Char} (h : matchSrcQ u = some g) :
    ∀ c ∈ g, c ≠ '"' := by
  unfold matchSrcQ at h
  split at h
  · simp at h
  · split at h
    · simp at h
    · split at h
      · injection h with h1
        subst h1
        intro c hc
        have hp := List.mem_takeWhile_imp hc
        simpa using hp
      · simp at h

theorem imgTry_group {t : List Char} : ∀ (k : Nat) {g : List Char},
    imgTry t k = some g → ∀ c ∈ g, c ≠ '"'
  | 0, g, h => by simp [imgTry] at h
  | k + 1, g, h => by
    unfold imgTry at h
    split at h
    · rename_i g' hg
      injection h with h1
      subst h1
      exact matchSrcQ_group hg
    · exact imgTry_group k h

theorem matchImgAt_group {l g : List Char} (h : matchImgAt l = some g) :
    ∀ c ∈ g, c ≠ '"' := by
  unfold matchImgAt at h
  split at h
  · simp at h
  · exact imgTry_group _ h

/-- The `k`-th item as a function of the `k`-th split block alone. -/
def itemAt (html : List Char) (k : Nat) : Option PortfolioItem :=
  (((splitBlocks html).drop 1)[k]?).map (fun b => extractBlock k b)

theorem extract_length (html : List Char) : (extract html).length = countBoundary html := by
  unfold extract
  rw [extractFrom_length, List.length_drop, splitBlocks_length]
  simp

theorem extract_empty_of_no_marker {html : List Char} (h : countBoundary html = 0) :
    extract html = [] := by
  have := extract_length html
  rw [h] at this
  exact List.length_eq_zero.mp this

theorem extract_itemAt (html : List Char) (k : Nat) :
    (extract html)[k]? = itemAt html k :=
  extract_getElem? html k

theorem extract_index {html : List Char} {k : Nat} (hk : k < (extract html).length) :
    ((extract html)[k]?).map PortfolioItem.index = some (k + 1) := by
  rw [extract_getElem?]
  cases hb : ((splitBlocks html).drop 1)[k]? with
  | none =>
    exfalso
    unfold extract at hk
    rw [extractFrom_length] at hk
    rw [List.getElem?_eq_none_iff] at hb
    omega
  | some b => simp [extractBlock_index]

theorem titleOf_none {b : List Char} (h : searchAux matchTitleAt b = none) : titleOf b = [] := by
  unfold titleOf
  rw [h]

theorem titleOf_some {b g : List Char} (h : searchAux matchTitleAt b = some g) :
    titleOf b = trim g := by
  unfold titleOf
  rw [h]

theorem imageOf_none {b : List Char} (h : searchAux matchImgAt b = none) : imageOf b = [] := by
  unfold imageOf
  rw [h]

theorem imageOf_some {b g : List Char} (h : searchAux matchImgAt b = some g) :
    imageOf b = trim g := by
  unfold imageOf
  rw [h]

theorem rawLinkOf_none {b : List Char} (h : searchAux matchLinkAt b = none) : rawLinkOf b = [] := by
  unfold rawLinkOf
  rw [h]

theorem rawLinkOf_some {b g : List Char} (h : searchAux matchLinkAt b = some g) :
    rawLinkOf b = trim g := by
  unfold rawLinkOf
  rw [h]

theorem titleOf_no_lt (b : List Char) : ∀ c ∈ titleOf b, c ≠ '<' := by
  unfold titleOf
  cases h : searchAux matchTitleAt b with
  | none => simp
  | some g =>
    intro c hc
    obtain ⟨j, hj⟩ := searchAux_some matchTitleAt b g h
    exact matchTitleAt_group hj c (mem_trim hc)

theorem imageOf_no_quote (b : List Char) : ∀ c ∈ imageOf b, c ≠ '"' := by
  unfold imageOf
  cases h : searchAux matchImgAt b with
  | none => simp
  | some g =>
    intro c hc
    obtain ⟨j, hj⟩ := searchAux_some matchImgAt b g h
    exact matchImgAt_group hj c (mem_trim hc)

theorem rawLinkOf_no_quote (b : List Char) : ∀ c ∈ rawLinkOf b, c ≠ '"' := by
  unfold rawLinkOf
  cases h : searchAux matchLinkAt b with
  | none => simp
  | some g =>
    intro c hc
    obtain ⟨j, hj⟩ := searchAux_some matchLinkAt b g h
    exact matchLinkAt_group hj c (mem_trim hc)

theorem noLink_ne_nil : noLink ≠ [] := by decide

theorem trim_noLink : trim noLink = noLink := by decide

theorem mem_extractFrom : ∀ (i : Nat) (bs : List (List Char)) (it : PortfolioItem),
    it ∈ extractFrom i bs → ∃ j b, it = extractBlock j b
  | i, [], it, h => by simp [extractFrom] at h
  | i, b :: bs, it, h => by
    rw [extractFrom] at h
    rcases List.mem_cons.mp h with h1 | h2
    · exact ⟨i, b, h1⟩
    · exact mem_extractFrom (i + 1) bs it h2

theorem mem_extract {html : List Char} {it : PortfolioItem} (h : it ∈ extract html) :
    ∃ j b, it = extractBlock j b :=
  mem_extractFrom 0 _ it h

/-- Link properties shared by all emitted items. -/
theorem extractBlock_link_props (i : Nat) (b : List Char) :
    ((extractBlock i b).link ≠ noLink → ∀ c ∈ (extractBlock i b).link, c ≠ '"') ∧
    trim (extractBlock i b).link = (extractBlock i b).link ∧ (extractBlock i b).link ≠ [] := by
  rw [extractBlock_link]
  by_cases hc : rawLinkOf b = [] ∨ rawLinkOf b = [ '#' ]
  · rw [if_pos hc]
    exact ⟨fun h => absurd rfl h, trim_noLink, noLink_ne_nil⟩
  · rw [if_neg hc]
    exact ⟨fun _ => rawLinkOf_no_quote b, trim_rawLinkOf b, fun hnil => hc (Or.inl hnil)⟩

/-! ### Concrete inputs used by witnesses and counterexamples -/

/-- An input with no block-boundary marker. -/
def exNoMarker : List Char := String.toList "no markers here"

/-- An input with exactly one block, holding a title, an anchor and an image. -/
def exOneBlock : List Char :=
  String.toList "<div id=\"div_block-4-15103-2\"><span id=\"span-225-15124-2\" class=\"c\"> Alpha </span><a  href=\"http://x/a\"><img height=\"3\" src=\"a.png\">"

/-- `exOneBlock` followed by a second block of junk. -/
def exTwoBlocks : List Char :=
  exOneBlock ++ String.toList "<div id=\"div_block-4-15103-3\">junk"

/-- The item extracted from the single block of `exOneBlock`. -/
def itemAlpha : PortfolioItem :=
  { index := 1
    title := String.toList "Alpha"
    image := String.toList "a.png"
    link := String.toList "http://x/a" }

/-- A block whose first title marker has inner text with surrounding spaces. -/
def exTitleBlock : List Char :=
  String.toList "<span id=\"span-225-15124-3\" class=\"c\"> Hi </span>"

/-- A block containing two anchor markers. -/
def exTwoAnchors : List Char := String.toList "<a href=\"u\"><a href=\"v\">"

/-- A block containing two image markers. -/
def exTwoImages : List Char := String.toList "<img src=\"p\"><img src=\"q\">"

/-- A block whose anchor value trims to a bare fragment marker. -/
def cexC2 : List Char := String.toList "<a href=\" # \">"

/-! ### Claims -/

/-- C1: for every input whose scan finds N occurrences of the block-boundary
pattern, `extract` returns exactly N items whose index fields are 1..N in
split order; in particular zero occurrences give the empty sequence. -/
theorem C1_count_and_indices (html : List Char) :
    (extract html).length = countBoundary html ∧
    (∀ k, k < (extract html).length →
      ((extract html)[k]?).map PortfolioItem.index = some (k + 1)) ∧
    (countBoundary html = 0 → extract html = []) :=
  ⟨extract_length html, fun _ hk => extract_index hk, fun h => extract_empty_of_no_marker h⟩

theorem C1_count_and_indices_witness :
    (extract exOneBlock).length = countBoundary exOneBlock ∧
    ((extract exOneBlock)[0]?).map PortfolioItem.index = some 1 ∧
    extract exNoMarker = [] :=
  ⟨(C1_count_and_indices exOneBlock).1,
   (C1_count_and_indices exOneBlock).2.1 0 (by decide),
   (C1_count_and_indices exNoMarker).2.2 (by decide)⟩

/-- C2, as stated by the spec: the link is the placeholder exactly when the
captured anchor value is absent, empty after trimming, or equal to the bare
string `#`; every other captured value appears trimmed but otherwise
unchanged.  (Refuted below: a capture `" # "` trims to `"#"` and is
normalized to the placeholder by both scripts.) -/
def claimC2 : Prop :=
  ∀ (i : Nat) (b : List Char),
    (((extractBlock i b).link = noLink ↔
        (searchAux matchLinkAt b = none ∨
          ∃ g, searchAux matchLinkAt b = some g ∧ (trim g = [] ∨ g = [ '#' ]))) ∧
      ∀ g, searchAux matchLinkAt b = some g → ¬(trim g = [] ∨ g = [ '#' ]) →
        (extractBlock i b).link = trim g) ∧
    (((extractBlockB i b).link = noLink ↔
        (searchAux matchLinkAt b = none ∨
          ∃ g, searchAux matchLinkAt b = some g ∧ (trim g = [] ∨ g = [ '#' ]))) ∧
      ∀ g, searchAux matchLinkAt b = some g → ¬(trim g = [] ∨ g = [ '#' ]) →
        (extractBlockB i b).link = trim g)

/-- C2 is false on the code: in the block `<a href=" # ">` the captured anchor
value `" # "` is neither absent, nor empty after trimming, nor equal to the
bare string `"#"`, yet the emitted link is the placeholder, not `"#"`. -/
theorem C2_counterexample : ¬ claimC2 := by
  intro h
  have h2 := (h 0 cexC2).1.2 (String.toList " # ") (by decide) (by decide)
  exact absurd h2 (by decide)

/-- C2 amended: in both scripts the link is the placeholder if the captured
anchor value is absent or trims to `""` or to `"#"`; every capture whose trim
is neither `""` nor `"#"` appears in the item trimmed but otherwise
unchanged. -/
theorem C2_amended (i : Nat) (b : List Char) :
    ((searchAux matchLinkAt b = none ∨
        ∃ g, searchAux matchLinkAt b = some g ∧ (trim g = [] ∨ trim g = [ '#' ])) →
      (extractBlock i b).link = noLink ∧ (extractBlockB i b).link = noLink) ∧
    (∀ g, searchAux matchLinkAt b = some g → trim g ≠ [] → trim g ≠ [ '#' ] →
      (extractBlock i b).link = trim g ∧ (extractBlockB i b).link = trim g) := by
  constructor
  · intro h
    have hdeg : rawLinkOf b = [] ∨ rawLinkOf b = [ '#' ] := by
      rcases h with h | ⟨g, hg, hdeg⟩
      · exact Or.inl (rawLinkOf_none h)
      · rw [rawLinkOf_some hg]
        exact hdeg
    rw [extractBlock_link, extractBlockB_link, if_pos hdeg]
    exact ⟨rfl, rfl⟩
  · intro g hg h1 h2
    have hr := rawLinkOf_some hg
    have hneg : ¬(trim g = [] ∨ trim g = [ '#' ]) := by
      simp [h1, h2]
    rw [extractBlock_link, extractBlockB_link, hr, if_neg hneg]
    exact ⟨rfl, rfl⟩

theorem C2_amended_witness :
    (extractBlock 0 cexC2).link = noLink ∧ (extractBlockB 0 cexC2).link = noLink :=
  (C2_amended 0 cexC2).1
    (Or.inr ⟨String.toList " # ", by decide, Or.inr (by decide)⟩)

/-- C3: locality — the k-th item is a function of the k-th split block alone,
so two inputs whose splits agree on block k get identical k-th items; a
marker in a later block never populates an earlier item. -/
theorem C3_locality (h₁ h₂ : List Char) (k : Nat)
    (hb : ((splitBlocks h₁).drop 1)[k]? = ((splitBlocks h₂).drop 1)[k]?) :
    (extract h₁)[k]? = (extract h₂)[k]? ∧ (extract h₁)[k]? = itemAt h₁ k := by
  refine ⟨?_, extract_itemAt h₁ k⟩
  rw [extract_itemAt, extract_itemAt]
  unfold itemAt
  rw [hb]

theorem C3_locality_witness :
    (extract exOneBlock)[0]? = (extract exTwoBlocks)[0]? ∧
    (extract exOneBlock)[0]? = itemAt exOneBlock 0 :=
  C3_locality exOneBlock exTwoBlocks 0 (by decide)

/-- C4: the extraction is a total function of the input (it is defined as a
Lean function, so it raises nothing on any input, malformed markup included);
with no boundary marker it returns the empty sequence, and a block missing a
title or image sub-marker yields an item with the empty string in that
field, in both script variants. -/
theorem C4_no_failure :
    (∀ html, countBoundary html = 0 → extract html = [] ∧ extractB html = []) ∧
    (∀ (i : Nat) (b : List Char),
      (searchAux matchTitleAt b = none →
        (extractBlock i b).title = [] ∧ (extractBlockB i b).title = []) ∧
      (searchAux matchImgAt b = none →
        (extractBlock i b).image = [] ∧ (extractBlockB i b).image = [])) := by
  refine ⟨fun html h => ?_, fun i b => ⟨fun h => ?_, fun h => ?_⟩⟩
  · have h1 := extract_empty_of_no_marker h
    refine ⟨h1, ?_⟩
    rw [← extract_eq_extractB]
    exact h1
  · rw [extractBlock_title, extractBlockB_title, titleOf_none h]
    exact ⟨rfl, rfl⟩
  · rw [extractBlock_image, extractBlockB_image, imageOf_none h]
    exact ⟨rfl, rfl⟩

theorem C4_no_failure_witness :
    extract exNoMarker = [] ∧
    (extractBlock 0 []).title = [] ∧ (extractBlock 0 []).image = [] :=
  ⟨(C4_no_failure.1 exNoMarker (by decide)).1,
   ((C4_no_failure.2 0 []).1 (by decide)).1,
   ((C4_no_failure.2 0 []).2 (by decide)).1⟩

/-- C5: build_portfolio_list.py's guard — on blank input or input missing the
sentinel substring it emits the diagnostic and writes nothing; on every other
input it extracts and writes the items. -/
theorem C5_guard (html : List Char) :
    ((trim html = [] ∨ containsSub sentinel html = false) →
      buildMain html = { diag := some diagMsg, written := none }) ∧
    (trim html ≠ [] → containsSub sentinel html = true →
      buildMain html = { diag := none, written := some (extractB html) }) := by
  constructor
  · intro h
    unfold buildMain
    rw [if_pos h]
  · intro h1 h2
    unfold buildMain
    rw [if_neg (by simp [h1, h2])]

theorem C5_guard_witness :
    buildMain [] = { diag := some diagMsg, written := none } ∧
    buildMain sentinel = { diag := none, written := some (extractB sentinel) } :=
  ⟨(C5_guard []).1 (Or.inl (by decide)),
   (C5_guard sentinel).2 (by decide) (by decide)⟩

/-- C6: in both scripts the item's title is the trimmed capture of the first
(leftmost) title-marker match in the block, and the empty string when no
position of the block matches the title marker. -/
theorem C6_title (i : Nat) (b : List Char) :
    ((∀ j, matchTitleAt (b.drop j) = none) →
      (extractBlock i b).title = [] ∧ (extractBlockB i b).title = []) ∧
    (∀ j g, matchTitleAt (b.drop j) = some g →
      (∀ j', j' < j → matchTitleAt (b.drop j') = none) →
      (extractBlock i b).title = trim g ∧ (extractBlockB i b).title = trim g) := by
  constructor
  · intro h
    rw [extractBlock_title, extractBlockB_title, titleOf_none (searchAux_none matchTitleAt b h)]
    exact ⟨rfl, rfl⟩
  · intro j g hj hmin
    rw [extractBlock_title, extractBlockB_title,
      titleOf_some (searchAux_first matchTitleAt b j g hj hmin)]
    exact ⟨rfl, rfl⟩

theorem C6_title_witness :
    (extractBlock 0 exTitleBlock).title = trim (String.toList " Hi ") ∧
    (extractBlockB 0 exTitleBlock).title = trim (String.toList " Hi ") :=
  (C6_title 0 exTitleBlock).2 0 (String.toList " Hi ") (by decide)
    (fun j hj => absurd hj (Nat.not_lt_zero j))

/-- C7: first-match-only — if a block has an anchor (resp. image) match at
position j₁, none earlier, and another match at a later position j₂, the
captured value put into the item is the one from j₁; the later one is
ignored. -/
theorem C7_first_only (i : Nat) (b : List Char) :
    (∀ j₁ g₁ j₂ g₂, j₁ < j₂ → matchLinkAt (b.drop j₁) = some g₁ →
      (∀ j', j' < j₁ → matchLinkAt (b.drop j') = none) → matchLinkAt (b.drop j₂) = some g₂ →
      searchAux matchLinkAt b = some g₁ ∧ rawLinkOf b = trim g₁) ∧
    (∀ j₁ g₁ j₂ g₂, j₁ < j₂ → matchImgAt (b.drop j₁) = some g₁ →
      (∀ j', j' < j₁ → matchImgAt (b.drop j') = none) → matchImgAt (b.drop j₂) = some g₂ →
      searchAux matchImgAt b = some g₁ ∧
      (extractBlock i b).image = trim g₁ ∧ (extractBlockB i b).image = trim g₁) := by
  constructor
  · intro j₁ g₁ j₂ g₂ hlt hj₁ hmin hj₂
    have hs := searchAux_first matchLinkAt b j₁ g₁ hj₁ hmin
    exact ⟨hs, rawLinkOf_some hs⟩
  · intro j₁ g₁ j₂ g₂ hlt hj₁ hmin hj₂
    have hs := searchAux_first matchImgAt b j₁ g₁ hj₁ hmin
    refine ⟨hs, ?_, ?_⟩
    · rw [extractBlock_image, imageOf_some hs]
    · rw [extractBlockB_image, imageOf_some hs]

theorem C7_first_only_witness :
    (searchAux matchLinkAt exTwoAnchors = some (String.toList "u") ∧
      rawLinkOf exTwoAnchors = trim (String.toList "u")) ∧
    (searchAux matchImgAt exTwoImages = some (String.toList "p") ∧
      (extractBlock 0 exTwoImages).image = trim (String.toList "p") ∧
      (extractBlockB 0 exTwoImages).image = trim (String.toList "p")) :=
  ⟨(C7_first_only 0 exTwoAnchors).1 0 (String.toList "u") 12 (String.toList "v")
      (by decide) (by decide) (fun j hj => absurd hj (Nat.not_lt_zero j)) (by decide),
   (C7_first_only 0 exTwoImages).2 0 (String.toList "p") 13 (String.toList "q")
      (by decide) (by decide) (fun j hj => absurd hj (Nat.not_lt_zero j)) (by decide)⟩

/-- C8, as stated by the spec's open question: for some guard-passing input
the two scripts assign different link values to the item of the same block.
(Refuted below: the two link normalizations are extensionally identical.) -/
def claimC8 : Prop :=
  ∃ html : List Char, (trim html ≠ [] ∧ containsSub sentinel html = true) ∧
    ∃ (k : Nat) (i₁ i₂ : PortfolioItem), (extract html)[k]? = some i₁ ∧
      (extractB html)[k]? = some i₂ ∧ i₁.link ≠ i₂.link

/-- C8 is false on the code: on every input the two scripts produce identical
item sequences, so no block ever receives different link values. -/
theorem C8_counterexample : ¬ claimC8 := by
  rintro ⟨html, hguard, k, i₁, i₂, h1, h2, hne⟩
  rw [extract_eq_extractB] at h1
  rw [h1] at h2
  injection h2 with h3
  exact hne (by rw [h3])

/-- C8 amended: the two scripts' link normalizations coincide — on every
input they produce identical item sequences (identical link values for every
block); the variants differ only in the pre-check guard, not in link values. -/
theorem C8_amended :
    ∀ html : List Char, extract html = extractB html ∧
      ∀ (i : Nat) (b : List Char), (extractBlock i b).link = (extractBlockB i b).link :=
  fun html =>
    ⟨extract_eq_extractB html,
     fun i b => by rw [extractBlock_eq_extractBlockB]⟩

/-- C9: extraction is deterministic — two calls on the same input string give
sequences of the same length, equal at every position. -/
theorem C9_deterministic (h₁ h₂ : List Char) (he : h₁ = h₂) :
    (extract h₁).length = (extract h₂).length ∧
    ∀ k : Nat, (extract h₁)[k]? = (extract h₂)[k]? := by
  subst he
  exact ⟨rfl, fun _ => rfl⟩

theorem C9_deterministic_witness :
    (extract exOneBlock).length = (extract exOneBlock).length ∧
    (extract exOneBlock)[0]? = (extract exOneBlock)[0]? :=
  ⟨(C9_deterministic exOneBlock exOneBlock rfl).1,
   (C9_deterministic exOneBlock exOneBlock rfl).2 0⟩

/-- C10: every emitted item (of either script) has a title without `<`, an
image without `"`, a non-placeholder link without `"`, all three fields
already trimmed, and a nonempty link (a trimmed URL or the placeholder). -/
theorem C10_invariants (html : List Char) (it : PortfolioItem)
    (h : it ∈ extract html ∨ it ∈ extractB html) :
    (∀ c ∈ it.title, c ≠ '<') ∧ (∀ c ∈ it.image, c ≠ '"') ∧
    (it.link ≠ noLink → ∀ c ∈ it.link, c ≠ '"') ∧
    trim it.title = it.title ∧ trim it.image = it.image ∧ trim it.link = it.link ∧
    it.link ≠ [] := by
  have hmem : it ∈ extract html := by
    rcases h with h | h
    · exact h
    · rw [extract_eq_extractB html]
      exact h
  obtain ⟨j, b, rfl⟩ := mem_extract hmem
  have hl := extractBlock_link_props j b
  exact ⟨titleOf_no_lt b, imageOf_no_quote b, hl.1, trim_titleOf b, trim_imageOf b,
    hl.2.1, hl.2.2⟩

theorem C10_invariants_witness :
    trim itemAlpha.title = itemAlpha.title ∧ trim itemAlpha.link = itemAlpha.link ∧
    itemAlpha.link ≠ [] :=
  ⟨(C10_invariants exOneBlock itemAlpha (Or.inl (by decide))).2.2.2.1,
   (C10_invariants exOneBlock itemAlpha (Or.inl (by decide))).2.2.2.2.2.1,
   (C10_invariants exOneBlock itemAlpha (Or.inl (by decide))).2.2.2.2.2.2⟩

end Portfolio
